import Mathlib

/-!
Verification development for `src/main/services/game-files-manager.ts`
(class `GameFilesManager`).

The TypeScript module is shallowly embedded below.  Filesystem state,
the key-value store, the extraction engine and the installer process are
modelled as explicit inputs (existence flags, directory listings,
per-file success outcomes, process exit codes); each operation is a pure
Lean function from those inputs to its return value together with a
trace of its observable effects (store writes, outbound renderer
signals, file writes/deletions, the installer invocation).
-/

namespace Hydra

/-- Lowercase a JS string (`String.prototype.toLowerCase`), modelled
character-wise; the file names involved are ASCII. -/
def lowerChars (s : String) : List Char :=
  s.data.map Char.toLower

/-- `l` ends with `suffixChars` (exact, case-sensitive at this level). -/
def endsWithL (l suffixChars : List Char) : Bool :=
  suffixChars.reverse.isPrefixOf l.reverse

/-- The regex test `/part1\.rar$/i.test(file)` from
`game-files-manager.ts`: the file name ends with `part1.rar`,
case-insensitively. -/
def part1Match (s : String) : Bool :=
  endsWithL (lowerChars s) "part1.rar".data

/-- The regex test `/part\d+\.rar$/i.test(file)`: case-insensitively the
name ends with `part`, then one or more digits, then `.rar`.  A match of
`\d+` must be a contiguous digit run ending right before `.rar`, and
`part` must immediately precede the run it matched; if the maximal digit
run before `.rar` had further digits in front of the run chosen by the
regex, the character before that chosen run would be a digit, not `t`.
Hence the regex matches exactly when the maximal digit run adjacent to
`.rar` is nonempty and is immediately preceded by `part`, which is what
this function checks (on the reversed lowercased name). -/
def partNMatch (s : String) : Bool :=
  match (lowerChars s).reverse with
  | 'r' :: 'a' :: 'r' :: '.' :: rest =>
      !(rest.takeWhile Char.isDigit).isEmpty
        && endsWithL (rest.dropWhile Char.isDigit).reverse "part".data
  | _ => false

/-- Modelled from the spec: the constant `FILE_EXTENSIONS_TO_EXTRACT`
is imported from the `@shared` module, which is not part of the sources
under review; the spec only calls its members "recognized
compressed-file extensions" and its examples use `.rar` and `.zip`
archives.  The claims below never depend on the exact members beyond
`.rar`/`.zip` being recognized. -/
def FILE_EXTENSIONS_TO_EXTRACT : List String :=
  [".rar", ".zip"]

/-- `file.endsWith(ext)` test of `extractFilesInDirectory` (line 55),
which is case-sensitive. -/
def matchesExtension (file : String) : Bool :=
  FILE_EXTENSIONS_TO_EXTRACT.any fun ext => endsWithL file.data ext.data

/-- The local `isCompressed` of `getExtractionInfo` (line 114):
`fname.toLowerCase().endsWith(ext)`. -/
def isCompressed (fname : String) : Bool :=
  FILE_EXTENSIONS_TO_EXTRACT.any fun ext => endsWithL (lowerChars fname) ext.data

/-- The "files to extract" predicate used at lines 58-60, 139-141 and
163-165: `/part1\.rar$/i.test(file) || !/part\d+\.rar$/i.test(file)`. -/
def shouldExtract (file : String) : Bool :=
  part1Match file || !(partNMatch file)

/-- The `filesToExtract` selection: the compressed files passing
`shouldExtract`. -/
def filesToExtract (compressedFiles : List String) : List String :=
  compressedFiles.filter shouldExtract

/-- Outcome of one `extractFilesInDirectory` call: the files whose
extraction task failed (a nonempty list makes the aggregate
`Promise.all` reject with `Failed to extract file: <first>`), and the
files the final loop deleted. -/
structure ExtractDirResult where
  failed : List String
  deleted : List String
deriving DecidableEq, Repr

/-- `extractFilesInDirectory(directoryPath)` (lines 50-96).  Inputs:
whether the directory exists, its listing, and the per-file success of
the external extraction engine.  If the directory is missing the call
returns at once.  Otherwise every file in `filesToExtract` is handed to
the engine; the tasks are awaited with `Promise.all`, so if any task
fails the `await` throws and the subsequent deletion loop (lines 83-95)
is never executed; only when every task succeeds does the loop delete
every originally-compressed file. -/
def extractFilesInDirectory (dirExists : Bool) (files : List String)
    (extractOk : String → Bool) : ExtractDirResult :=
  if dirExists then
    let compressedFiles := files.filter matchesExtension
    let toExtract := filesToExtract compressedFiles
    let failed := toExtract.filter fun f => !(extractOk f)
    if failed.isEmpty then
      { failed := [], deleted := compressedFiles }
    else
      { failed := failed, deleted := [] }
  else
    { failed := [], deleted := [] }

/-- `path.join(a, b)` modelled as separator concatenation (the paths fed
to it here carry no `..`/`.` segments to normalize). -/
def pathJoin (a b : String) : String :=
  a ++ "/" ++ b

/-- `path.parse(s).name`: the base name with its last extension
stripped; a dot at position 0 (hidden-file style) does not start an
extension. -/
def stem (s : String) : String :=
  let rev := s.data.reverse
  let afterDot := rev.takeWhile (fun c => c ≠ '.')
  if afterDot.length + 1 < s.data.length then
    String.mk ((rev.drop (afterDot.length + 1)).reverse)
  else
    s

/-- The `info` record built by `getExtractionInfo` and handed to the
installer. -/
structure ExtractionInfo where
  filePath : Option String
  extractionPath : Option String
  folderName : Option String
  compressedFiles : Option (List String)
deriving DecidableEq, Repr

/-- What `fs.existsSync` plus `stat` report for `root/folderName`. -/
inductive EntryKind where
  | file
  | directory
deriving DecidableEq, Repr

/-- The filesystem facts `getExtractionInfo` consults. -/
structure FSView where
  candidateKind : Option EntryKind
  candidateListing : List String
  rootExists : Bool
  rootListing : List String
deriving Repr

/-- The `filesToExtract.length ? filesToExtract[0] : compressedFiles[0]`
choice (lines 139-142 and 163-166). -/
def chooseArchive (compressedFiles : List String) : Option String :=
  match compressedFiles with
  | [] => none
  | c0 :: _ =>
    match filesToExtract compressedFiles with
    | [] => some c0
    | f0 :: _ => some f0

/-- Step 2 of `getExtractionInfo` (lines 157-171): scan `downloadPath`
itself for compressed files. -/
def getExtractionInfoScanRoot (root extractedRoot : String)
    (info : ExtractionInfo) (fs : FSView) : ExtractionInfo :=
  if fs.rootExists then
    let compressedFiles := fs.rootListing.filter isCompressed
    let info := { info with compressedFiles := some compressedFiles }
    match chooseArchive compressedFiles with
    | some chosen =>
      { info with
          filePath := some (pathJoin root chosen)
          extractionPath := some (pathJoin extractedRoot (stem chosen)) }
    | none => info
  else info

/-- `getExtractionInfo(download)` (lines 98-179).  `root` is
`download.downloadPath`, `folderName` is `download.folderName || ""`,
`cfgExtractedFolder` is `zerokeyConfig?.paths?.extracted_folder` (the
optional override read from `zerokey/config.yaml`), and `fs` carries the
filesystem answers.  `path.resolve` on an already-joined path is
modelled as the identity. -/
def getExtractionInfo (root folderName : String)
    (cfgExtractedFolder : Option String) (fs : FSView) : ExtractionInfo :=
  let extractedRoot := cfgExtractedFolder.getD root
  let info : ExtractionInfo :=
    { filePath := none
      extractionPath := none
      folderName := if folderName = "" then none else some folderName
      compressedFiles := none }
  if folderName ≠ "" then
    match fs.candidateKind with
    | some .file =>
      if isCompressed folderName then
        { info with
            filePath := some (pathJoin root folderName)
            extractionPath := some (pathJoin extractedRoot (stem folderName)) }
      else getExtractionInfoScanRoot root extractedRoot info fs
    | some .directory =>
      let compressedFiles := fs.candidateListing.filter isCompressed
      let info := { info with compressedFiles := some compressedFiles }
      match chooseArchive compressedFiles with
      | some chosen =>
        { info with
            filePath := some (pathJoin (pathJoin root folderName) chosen)
            extractionPath := some (pathJoin extractedRoot folderName) }
      | none => { info with extractionPath := some (pathJoin extractedRoot folderName) }
    | none => getExtractionInfoScanRoot root extractedRoot info fs
  else getExtractionInfoScanRoot root extractedRoot info fs

/-- The `status` values this module reads and writes. -/
inductive Status where
  | downloading
  | extracting
  | installing
  | complete
  | error
deriving DecidableEq, Repr

/-- The download record held by `downloadsSublevel`.  `extra` stands for
every further stored field, all of which the module's read-modify-write
spreads (`{ ...download, ... }`) copy verbatim. -/
structure DownloadRecord where
  downloadPath : String
  folderName : Option String
  extracting : Bool
  status : Status
  extra : String
deriving DecidableEq, Repr

/-- The companion game record, used only as the notification payload. -/
structure GameRecord where
  title : String
deriving DecidableEq, Repr

/-- JSON values occurring in the `extract.json` documents. -/
inductive JsonVal where
  | null
  | str (s : String)
  | arr (xs : List String)
deriving DecidableEq, Repr

/-- `x ?? null` / `x || null` on an optional string field. -/
def optStr : Option String → JsonVal
  | none => .null
  | some s => .str s

/-- The `contents` object `startInstallation` serializes to
`<resources>/zerokey/extract.json` (lines 207-213): the four
extraction-info fields plus `timestamp: new Date().toISOString()`. -/
def startInstallationDescriptor (info : ExtractionInfo) (timestamp : String) :
    List (String × JsonVal) :=
  [ ("filePath", optStr info.filePath)
  , ("extractionPath", optStr info.extractionPath)
  , ("folderName", optStr info.folderName)
  , ("compressedFiles", .arr (info.compressedFiles.getD []))
  , ("timestamp", .str timestamp) ]

/-- The `payload` object `runInstallerIfExists` serializes to
`extract.json` in the installer's own directory (lines 450-455):
`filePath`, `extractionPath`, `folderName`, `compressedFiles` — and no
`timestamp` field. -/
def installerDirDescriptor (info : Option ExtractionInfo) :
    List (String × JsonVal) :=
  [ ("filePath", optStr (info.bind (·.filePath)))
  , ("extractionPath", optStr (info.bind (·.extractionPath)))
  , ("folderName", optStr (info.bind (·.folderName)))
  , ("compressedFiles", .arr ((info.bind (·.compressedFiles)).getD [])) ]

/-- Reading a string-or-null field back from a written descriptor. -/
def decodeStr : Option JsonVal → Option String
  | some (.str s) => some s
  | _ => none

/-- Observable effects of the module, in program order: store writes,
the four renderer lifecycle signals, notification requests, descriptor
writes, file deletions, and the installer invocation (identified by the
extraction info shaping its descriptor). -/
inductive Event where
  | putDownload (r : DownloadRecord)
  | sendExtractionComplete
  | sendInstallationStart
  | sendInstallationComplete
  | sendInstallationError (msg : String)
  | publishNotification (g : GameRecord)
  | writeExtractJson (dir : String) (doc : List (String × JsonVal))
  | unlinkFile (p : String)
  | spawnInstaller (info : Option ExtractionInfo)
deriving DecidableEq, Repr

/-- Result of awaiting the spawned installer: its `exit` event with a
possibly-null code, or a spawn `error` event. -/
inductive ProcOutcome where
  | exited (code : Option Int)
  | errored (msg : String)
deriving DecidableEq, Repr

/-- `runInstallerIfExists(extractionInfo?)` return value (lines
392-572), as an `Except`: `error` is a rejected promise.  `cands` lists,
in order, whether each of the four fixed candidate installer paths
exists; no hit means resolve `false` without running anything.
Otherwise the promise settles from the child process outcome: exit code
`0` or `null` resolves `true`, a nonzero code rejects with
`Installer exit code <code>`, and a spawn error rejects with that
error's message. -/
def runInstallerIfExists (cands : List Bool) (proc : ProcOutcome) :
    Except String Bool :=
  if cands.any id then
    match proc with
    | .errored m => .error m
    | .exited none => .ok true
    | .exited (some c) =>
      if c = 0 then .ok true else .error ("Installer exit code " ++ toString c)
  else .ok false

/-- Effect trace of `runInstallerIfExists`: when an installer binary is
found it deletes and rewrites `extract.json` beside the binary and
spawns the process.  (The stale-log deletions and the per-line
`on-installation-progress` signals forwarded from the installer's log
are elided here: they are independent of the `extractionInfo` argument
and identical for both entry points; the log-tailing itself is modelled
separately below.) -/
def runInstallerEvents (cands : List Bool) (info : Option ExtractionInfo) :
    List Event :=
  if cands.any id then
    [ .writeExtractJson "installerDir" (installerDirDescriptor info)
    , .spawnInstaller info ]
  else []

/-- `(err && err.message) || "Installation failed"` (lines 299, 387). -/
def errorMessageOr (m : String) : String :=
  if m = "" then "Installation failed" else m

/-- `clearExtractionState()` (lines 34-48): re-reads the record
(`current`), writes it back with `extracting := false`, and signals
extraction-complete.  Returns the written record and the trace. -/
def clearExtractionState (current : DownloadRecord) :
    DownloadRecord × List Event :=
  let updated := { current with extracting := false }
  (updated, [.putDownload updated, .sendExtractionComplete])

/-- Trace of `startInstallation(publishNotification)` (lines 181-302).
When either record is missing it returns with no effects.  Otherwise it
computes `extractionInfo` (`info`), writes the timestamped descriptor to
the fixed `zerokey` resources directory, marks the record
`installing`, signals extraction-complete and installation-start, runs
the installer with `extractionInfo`, and on resolution writes status
`complete` (notifying unless suppressed — the found-and-clean and
no-installer branches are verbatim duplicates in the source) or on
rejection writes status `error` and signals the error message. -/
def startInstallation (download : Option DownloadRecord)
    (game : Option GameRecord) (info : ExtractionInfo) (timestamp : String)
    (cands : List Bool) (proc : ProcOutcome) (publishNotification : Bool) :
    List Event :=
  match download, game with
  | some d, some g =>
    [.writeExtractJson "zerokeyDir" (startInstallationDescriptor info timestamp)]
      ++ [ .putDownload { d with extracting := false, status := .installing }
         , .sendExtractionComplete
         , .sendInstallationStart ]
      ++ runInstallerEvents cands (some info)
      ++ match runInstallerIfExists cands proc with
         | .ok _ =>
           [ .putDownload { d with extracting := false, status := .complete }
           , .sendInstallationComplete ]
             ++ if publishNotification then [.publishNotification g] else []
         | .error msg =>
           [ .putDownload { d with extracting := false, status := .error }
           , .sendInstallationError (errorMessageOr msg) ]
  | _, _ => []

/-- Trace of `setExtractionComplete(publishNotification)` (lines
306-390): identical to `startInstallation` except that no extraction
info is computed, no descriptor is written to the zerokey resources
directory, and the installer is invoked with no argument. -/
def setExtractionComplete (download : Option DownloadRecord)
    (game : Option GameRecord) (cands : List Bool) (proc : ProcOutcome)
    (publishNotification : Bool) : List Event :=
  match download, game with
  | some d, some g =>
    [ .putDownload { d with extracting := false, status := .installing }
    , .sendExtractionComplete
    , .sendInstallationStart ]
      ++ runInstallerEvents cands none
      ++ match runInstallerIfExists cands proc with
         | .ok _ =>
           [ .putDownload { d with extracting := false, status := .complete }
           , .sendInstallationComplete ]
             ++ if publishNotification then [.publishNotification g] else []
         | .error msg =>
           [ .putDownload { d with extracting := false, status := .error }
           , .sendInstallationError (errorMessageOr msg) ]
  | _, _ => []

/-- `extractDownloadedFile()` (lines 580-632).  Returns `false` with no
effects when either record is missing.  Otherwise it starts the primary
extraction and returns `true`; the trace then follows the engine's
callbacks: on failure, `clearExtractionState`; on success, the secondary
pass `extractFilesInDirectory(extractionPath)` (whose rejection is
unawaited and skips the rest of the callback), then deletion of the
original archive when both paths exist, the `folderName` update to the
extension-stripped name, and `startInstallation()` on the updated
record (with its default `publishNotification = true`). -/
def extractDownloadedFile (download : Option DownloadRecord)
    (game : Option GameRecord) (primaryOk : Bool) (secDirExists : Bool)
    (secFiles : List String) (secExtractOk : String → Bool)
    (extractionPathExists filePathExists : Bool) (info : ExtractionInfo)
    (timestamp : String) (cands : List Bool) (proc : ProcOutcome) :
    Bool × List Event :=
  match download, game with
  | some d, some g =>
    let trace :=
      if primaryOk then
        let sec := extractFilesInDirectory secDirExists secFiles secExtractOk
        let secEvents :=
          sec.deleted.map fun f => Event.unlinkFile (pathJoin d.downloadPath f)
        if sec.failed.isEmpty then
          let filePath := pathJoin d.downloadPath (d.folderName.getD "")
          let unlinkEvents :=
            if extractionPathExists && filePathExists then
              [Event.unlinkFile filePath]
            else []
          let d' := { d with folderName := some (stem (d.folderName.getD "")) }
          secEvents ++ unlinkEvents ++ [.putDownload d']
            ++ startInstallation (some d') (some g) info timestamp cands proc true
        else
          secEvents
            ++ (sec.failed.foldr
                 (fun _ acc => (clearExtractionState d).2 ++ acc) [])
      else (clearExtractionState d).2
    (true, trace)
  | _, _ => (false, [])

/-- Prepend a character to the first piece of a split (the effect of a
non-newline character on `partial.split(/\r?\n/)`). -/
def headCons (c : Char) : List (List Char) → List (List Char)
  | [] => [[c]]
  | h :: t => (c :: h) :: t

/-- `s.split(/\r?\n/)` on a character list: pieces between newline
matches, where a match is `\n` optionally preceded by `\r`; a lone `\r`
is ordinary text.  Always returns at least one (possibly empty)
piece. -/
def splitRN : List Char → List (List Char)
  | [] => [[]]
  | '\n' :: rest => [] :: splitRN rest
  | '\r' :: '\n' :: rest => [] :: splitRN rest
  | c :: rest => headCons c (splitRN rest)

/-- All pieces except the last (the `lines` kept after `lines.pop()`). -/
def initL : List (List Char) → List (List Char)
  | [] => []
  | [_] => []
  | x :: y :: xs => x :: initL (y :: xs)

/-- The last piece (what `lines.pop() || ""` puts back in `partial`). -/
def lastD : List (List Char) → List Char
  | [] => []
  | [x] => x
  | _ :: y :: xs => lastD (y :: xs)

/-- One `data` callback of the poll loop (lines 517-522): append the
chunk to the carry-over, split on `\r?\n`, keep the final piece as the
new carry-over and forward the complete lines. -/
def pollChunk (carry chunk : List Char) : List (List Char) × List Char :=
  let parts := splitRN (carry ++ chunk)
  (initL parts, lastD parts)

/-- Folding `pollChunk` over the sequence of appended byte ranges the
poll loop streamed, collecting all forwarded complete lines and the
final carry-over. -/
def pollAll (carry : List Char) : List (List Char) → List (List Char) × List Char
  | [] => ([], carry)
  | c :: cs =>
    let step := pollChunk carry c
    let rest := pollAll step.2 cs
    (step.1 ++ rest.1, rest.2)

/-- The final flush of `cleanup` (lines 530-549): the carry-over plus
the unread tail of the log, split on `\r?\n`, empty pieces removed by
`.filter(Boolean)`.  (When there is no unread tail the code sends the
bare carry-over, which coincides with this with `tail = []`.) -/
def flushLines (carry tail : List Char) : List (List Char) :=
  (splitRN (carry ++ tail)).filter (fun l => !l.isEmpty)

/-- `String.prototype.trim` on a character list. -/
def trimChars (l : List Char) : List Char :=
  ((l.dropWhile Char.isWhitespace).reverse.dropWhile Char.isWhitespace).reverse

/-- `sendLogLine` (lines 479-487): an empty string is dropped
(`if (!line) return`), anything else is forwarded trimmed. -/
def sendLogLine (l : List Char) : Option (List Char) :=
  if l.isEmpty then none else some (trimChars l)

/-- Every line forwarded as an `on-installation-progress` payload for a
log whose content reached the reader as the chunks `chunks` during
polling followed by the unread tail `tail` at cleanup (the synthetic
final `Process finished` line aside). -/
def forwardedLines (chunks : List (List Char)) (tail : List Char) :
    List (List Char) :=
  let st := pollAll [] chunks
  (st.1 ++ flushLines st.2 tail).filterMap sendLogLine

/-- Concatenation of the streamed chunks. -/
def concatAll (chunks : List (List Char)) : List Char :=
  chunks.foldr (· ++ ·) []

lemma headCons_ne_nil (c : Char) (ls : List (List Char)) : headCons c ls ≠ [] := by
  cases ls <;> simp [headCons]

lemma splitRN_lf (rest : List Char) : splitRN ('\n' :: rest) = [] :: splitRN rest := rfl

lemma splitRN_crlf (rest : List Char) :
    splitRN ('\r' :: '\n' :: rest) = [] :: splitRN rest := rfl

lemma splitRN_other (c : Char) (rest : List Char) (h1 : c ≠ '\n')
    (h2 : ¬(c = '\r' ∧ rest.head? = some '\n')) :
    splitRN (c :: rest) = headCons c (splitRN rest) :=
  splitRN.eq_4 c rest h1 fun _ hc hr => h2 ⟨hc, by rw [hr]; rfl⟩

lemma splitRN_ne_nil (l : List Char) : splitRN l ≠ [] := by
  cases l with
  | nil => simp [splitRN]
  | cons c rest =>
    by_cases h1 : c = '\n'
    · subst h1
      rw [splitRN_lf]
      simp
    · by_cases h2 : c = '\r' ∧ rest.head? = some '\n'
      · obtain ⟨hc, hh⟩ := h2
        subst hc
        cases rest with
        | nil => simp at hh
        | cons c2 rest2 =>
          simp at hh
          subst hh
          rw [splitRN_crlf]
          simp
      · rw [splitRN_other c rest h1 h2]
        exact headCons_ne_nil _ _

lemma splitRN_single : ∀ (l : List Char) (p : List Char), splitRN l = [p] → p = l := by
  have H : ∀ (n : Nat) (l : List Char), l.length ≤ n →
      ∀ p, splitRN l = [p] → p = l := by
    intro n
    induction n with
    | zero =>
      intro l hl p h
      have hnil : l = [] := List.length_eq_zero.mp (Nat.le_zero.mp hl)
      subst hnil
      simp [splitRN] at h
      exact h
    | succ n ih =>
      intro l hl p h
      cases l with
      | nil =>
        simp [splitRN] at h
        exact h
      | cons c rest =>
        have hlen : rest.length ≤ n := by
          simp [List.length_cons] at hl
          omega
        by_cases h1 : c = '\n'
        · subst h1
          rw [splitRN_lf] at h
          injection h with _ hb
          exact absurd hb (splitRN_ne_nil rest)
        · by_cases h2 : c = '\r' ∧ rest.head? = some '\n'
          · obtain ⟨hc, hh⟩ := h2
            subst hc
            cases rest with
            | nil => simp at hh
            | cons c2 rest2 =>
              simp at hh
              subst hh
              rw [splitRN_crlf] at h
              injection h with _ hb
              exact absurd hb (splitRN_ne_nil rest2)
          · rw [splitRN_other _ _ h1 h2] at h
            obtain ⟨hh, ht, hS⟩ := List.exists_cons_of_ne_nil (splitRN_ne_nil rest)
            rw [hS] at h
            simp [headCons] at h
            obtain ⟨hp, htnil⟩ := h
            rw [htnil] at hS
            rw [← hp, ih rest hlen hh hS]
  intro l p h
  exact H l.length l le_rfl p h

lemma splitRN_append_step (c : Char) (A B : List Char)
    (hsplit : splitRN (c :: A) = headCons c (splitRN A))
    (hsplitB : splitRN (c :: (A ++ B)) = headCons c (splitRN (A ++ B)))
    (IH : splitRN (A ++ B) = initL (splitRN A) ++ splitRN (lastD (splitRN A) ++ B)) :
    splitRN ((c :: A) ++ B)
      = initL (splitRN (c :: A)) ++ splitRN (lastD (splitRN (c :: A)) ++ B) := by
  obtain ⟨h, t, hS⟩ := List.exists_cons_of_ne_nil (splitRN_ne_nil A)
  cases t with
  | nil =>
    have hAeq : h = A := splitRN_single A h hS
    subst hAeq
    rw [List.cons_append, hsplit, hS]
    simp only [headCons, initL, lastD, List.nil_append]
    rw [List.cons_append, hsplitB]
  | cons t1 tl =>
    rw [List.cons_append, hsplitB, IH, hS, hsplit, hS]
    simp [headCons, initL, lastD]

lemma splitRN_append : ∀ (A B : List Char),
    splitRN (A ++ B) = initL (splitRN A) ++ splitRN (lastD (splitRN A) ++ B) := by
  have H : ∀ (n : Nat) (A : List Char), A.length ≤ n → ∀ B,
      splitRN (A ++ B) = initL (splitRN A) ++ splitRN (lastD (splitRN A) ++ B) := by
    intro n
    induction n with
    | zero =>
      intro A hA B
      have hnil : A = [] := List.length_eq_zero.mp (Nat.le_zero.mp hA)
      subst hnil
      simp [splitRN, initL, lastD]
    | succ n ih =>
      intro A hA B
      cases A with
      | nil => simp [splitRN, initL, lastD]
      | cons c A1 =>
        have hlen : A1.length ≤ n := by
          simp [List.length_cons] at hA
          omega
        by_cases h1 : c = '\n'
        · subst h1
          obtain ⟨h, t, hS⟩ := List.exists_cons_of_ne_nil (splitRN_ne_nil A1)
          rw [List.cons_append, splitRN_lf, splitRN_lf, ih A1 hlen B, hS]
          simp [initL, lastD]
        · by_cases h2 : c = '\r' ∧ A1.head? = some '\n'
          · obtain ⟨hc, hh⟩ := h2
            subst hc
            cases A1 with
            | nil => simp at hh
            | cons c2 A2 =>
              simp at hh
              subst hh
              have hlen2 : A2.length ≤ n := by
                simp [List.length_cons] at hA
                omega
              obtain ⟨h, t, hS⟩ := List.exists_cons_of_ne_nil (splitRN_ne_nil A2)
              rw [List.cons_append, List.cons_append, splitRN_crlf, splitRN_crlf,
                ih A2 hlen2 B, hS]
              simp [initL, lastD]
          · cases A1 with
            | nil =>
              rw [splitRN_other c [] h1 (by simp)]
              simp [splitRN, headCons, initL, lastD]
            | cons a A2 =>
              have h2B : ¬(c = '\r' ∧ ((a :: A2) ++ B).head? = some '\n') := by
                intro hcontra
                obtain ⟨hc, hhead⟩ := hcontra
                exact h2 ⟨hc, by simpa using hhead⟩
              exact splitRN_append_step c (a :: A2) B
                (splitRN_other c (a :: A2) h1 h2)
                (splitRN_other c ((a :: A2) ++ B) h1 h2B)
                (ih (a :: A2) hlen B)
  intro A B
  exact H A.length A le_rfl B

lemma concatAll_cons (c : List Char) (cs : List (List Char)) :
    concatAll (c :: cs) = c ++ concatAll cs := rfl

lemma pollAll_spec : ∀ (chunks : List (List Char)) (carry t : List Char),
    (pollAll carry chunks).1 ++ splitRN ((pollAll carry chunks).2 ++ t)
      = splitRN (carry ++ concatAll chunks ++ t) := by
  intro chunks
  induction chunks with
  | nil =>
    intro carry t
    simp [pollAll, concatAll]
  | cons c cs ih =>
    intro carry t
    simp only [pollAll, pollChunk]
    rw [concatAll_cons]
    rw [List.append_assoc, ih (lastD (splitRN (carry ++ c))) t]
    rw [List.append_assoc (lastD (splitRN (carry ++ c)))]
    rw [← splitRN_append (carry ++ c) (concatAll cs ++ t)]
    simp [List.append_assoc]

lemma filterMap_sendLogLine_filter (l : List (List Char)) :
    (l.filter fun x => !x.isEmpty).filterMap sendLogLine = l.filterMap sendLogLine := by
  induction l with
  | nil => simp
  | cons x xs ih =>
    cases x with
    | nil => simp [sendLogLine, ih]
    | cons a as => simp [sendLogLine, ih]

lemma filterMap_sendLogLine_eq_filter_map (l : List (List Char)) :
    l.filterMap sendLogLine = (l.filter fun x => !x.isEmpty).map trimChars := by
  induction l with
  | nil => rfl
  | cons x xs ih =>
    cases x with
    | nil => simpa [sendLogLine] using ih
    | cons a as => simp [sendLogLine, ih]

/-- Forwarding is independent of how the log content was chunked: the
stream of forwarded lines equals the one-shot split of the whole
content, with empty pieces dropped and each line trimmed (exactly what
`sendLogLine` does to every line). -/
lemma forwardedLines_eq (chunks : List (List Char)) (tail : List Char) :
    forwardedLines chunks tail
      = (splitRN (concatAll chunks ++ tail)).filterMap sendLogLine := by
  unfold forwardedLines flushLines
  rw [List.filterMap_append, filterMap_sendLogLine_filter, ← List.filterMap_append]
  have hspec := pollAll_spec chunks [] tail
  rw [List.nil_append] at hspec
  rw [hspec]

lemma filter_shouldExtract_nil (l : List String)
    (h : ∀ q ∈ l, partNMatch q = true ∧ part1Match q = false) :
    l.filter shouldExtract = [] := by
  rw [List.filter_eq_nil_iff]
  intro q hq
  obtain ⟨hN, h1⟩ := h q hq
  simp [shouldExtract, hN, h1]

/-- Claim C4: for every directory listing, the "files to extract"
selection equals the set of compressed files that either do not match
`partN.rar` (for any N) or match `part1.rar` case-insensitively; and for
a directory holding one `part1.rar` plus later `partN.rar` volumes of
the same set, the selection is exactly the part1 file, never the later
volumes. -/
theorem filesToExtract_part1_preference :
    (∀ compressedFiles : List String,
       filesToExtract compressedFiles
         = compressedFiles.filter fun f => !(partNMatch f) || part1Match f) ∧
    (∀ (l1 l2 : List String) (p : String), part1Match p = true →
       (∀ q ∈ l1 ++ l2, partNMatch q = true ∧ part1Match q = false) →
       filesToExtract (l1 ++ p :: l2) = [p]) := by
  constructor
  · intro compressedFiles
    unfold filesToExtract
    apply List.filter_congr
    intro f _
    unfold shouldExtract
    cases part1Match f <;> cases partNMatch f <;> rfl
  · intro l1 l2 p hp hrest
    unfold filesToExtract
    rw [List.filter_append, List.filter_cons_of_pos, filter_shouldExtract_nil l1,
      filter_shouldExtract_nil l2]
    · simp
    · intro q hq
      exact hrest q (by simp [hq])
    · intro q hq
      exact hrest q (by simp [hq])
    · simp [shouldExtract, hp]

/-- Witness for C4 on a concrete three-volume directory listing. -/
theorem filesToExtract_part1_preference_witness :
    part1Match "game.part1.rar" = true ∧
    (∀ q ∈ (["game.part2.rar"] ++ ["game.part3.rar"]),
      partNMatch q = true ∧ part1Match q = false) ∧
    filesToExtract (["game.part2.rar"] ++ "game.part1.rar" :: ["game.part3.rar"])
      = ["game.part1.rar"] :=
  ⟨by decide, by decide,
    filesToExtract_part1_preference.2 ["game.part2.rar"] ["game.part3.rar"]
      "game.part1.rar" (by decide) (by decide)⟩

/-- Claim C1 counterexample: a directory with two compressed archives
where the first fails to extract.  The aggregate operation does report
failure, but no originally-compressed file is deleted — the deletion
loop sits after the `await Promise.all`, whose rejection skips it. -/
theorem extractFilesInDirectory_failure_deletes_nothing :
    "a.zip" ∈ (["a.zip", "b.zip"].filter matchesExtension) ∧
    (extractFilesInDirectory true ["a.zip", "b.zip"] (fun f => f == "b.zip")).failed ≠ [] ∧
    "a.zip" ∉ (extractFilesInDirectory true ["a.zip", "b.zip"] (fun f => f == "b.zip")).deleted := by
  refine ⟨by decide, by decide, by decide⟩

/-- Claim C1 (amended): when every extraction task succeeds, the
aggregate succeeds and every originally-compressed file in the directory
is deleted; when any task fails, the aggregate reports failure but the
deletion loop is never reached, so no compressed file is deleted by this
call. -/
theorem extractFilesInDirectory_aggregate (files : List String)
    (extractOk : String → Bool) :
    ((∀ f ∈ filesToExtract (files.filter matchesExtension), extractOk f = true) →
       extractFilesInDirectory true files extractOk
         = { failed := [], deleted := files.filter matchesExtension }) ∧
    ((∃ f ∈ filesToExtract (files.filter matchesExtension), extractOk f = false) →
       (extractFilesInDirectory true files extractOk).failed ≠ [] ∧
       (extractFilesInDirectory true files extractOk).deleted = []) := by
  constructor
  · intro hall
    have hnil : (filesToExtract (files.filter matchesExtension)).filter
        (fun f => !(extractOk f)) = [] := by
      rw [List.filter_eq_nil_iff]
      intro f hf
      simp [hall f hf]
    unfold extractFilesInDirectory
    simp [hnil]
  · rintro ⟨f, hf, hfail⟩
    have hne : (filesToExtract (files.filter matchesExtension)).filter
        (fun x => !(extractOk x)) ≠ [] := by
      intro hcontra
      rw [List.filter_eq_nil_iff] at hcontra
      have := hcontra f hf
      simp [hfail] at this
    have hF : ((filesToExtract (files.filter matchesExtension)).filter
        (fun f => !(extractOk f))).isEmpty = false := by
      exact List.isEmpty_eq_false.mpr hne
    unfold extractFilesInDirectory
    simp [hF, hne]

/-- Witness for C1 (amended), both branches at concrete inputs. -/
theorem extractFilesInDirectory_aggregate_witness :
    ((∀ f ∈ filesToExtract (["a.zip", "b.zip"].filter matchesExtension),
        (fun _ : String => true) f = true) ∧
      extractFilesInDirectory true ["a.zip", "b.zip"] (fun _ => true)
        = { failed := [], deleted := ["a.zip", "b.zip"] }) ∧
    ((∃ f ∈ filesToExtract (["c.zip"].filter matchesExtension),
        (fun _ : String => false) f = false) ∧
      (extractFilesInDirectory true ["c.zip"] (fun _ => false)).failed ≠ [] ∧
      (extractFilesInDirectory true ["c.zip"] (fun _ => false)).deleted = []) :=
  ⟨⟨by decide,
      by
        have h := (extractFilesInDirectory_aggregate ["a.zip", "b.zip"]
          (fun _ => true)).1 (by decide)
        simpa using h⟩,
    ⟨by decide,
      (extractFilesInDirectory_aggregate ["c.zip"] (fun _ => false)).2 (by decide)⟩⟩

/-- Claim C10: in `getExtractionInfo`, when the candidate directory (or
the download path on the fallback branch) holds at least one compressed
file but the part1-preference selection is empty — every compressed file
matches `partN.rar` with N greater than 1 — the first compressed file in
directory-listing order is still chosen as `filePath`, never a null
archive. -/
theorem getExtractionInfo_fallback_first_compressed
    (root folderName : String) (cfg : Option String) (fs : FSView)
    (c0 : String) (cs : List String) :
    (folderName ≠ "" → fs.candidateKind = some .directory →
       fs.candidateListing.filter isCompressed = c0 :: cs →
       filesToExtract (c0 :: cs) = [] →
       (getExtractionInfo root folderName cfg fs).filePath
         = some (pathJoin (pathJoin root folderName) c0)) ∧
    (fs.candidateKind = none → fs.rootExists = true →
       fs.rootListing.filter isCompressed = c0 :: cs →
       filesToExtract (c0 :: cs) = [] →
       (getExtractionInfo root folderName cfg fs).filePath
         = some (pathJoin root c0)) := by
  constructor
  · intro hfn hkind hlist hempty
    simp [getExtractionInfo, hfn, hkind, hlist, chooseArchive, hempty]
  · intro hkind hroot hlist hempty
    by_cases hfn : folderName = "" <;>
      simp [getExtractionInfo, getExtractionInfoScanRoot, hkind, hroot, hlist,
        chooseArchive, hempty, hfn]

/-- Witness for C10: a directory of two later volumes with no part1
still selects the first listed volume; same on the fallback branch. -/
theorem getExtractionInfo_fallback_first_compressed_witness :
    (("game" : String) ≠ "" ∧
      (getExtractionInfo "/dl" "game" none
          (FSView.mk (some .directory) ["game.part2.rar", "game.part3.rar"] false [])).filePath
        = some (pathJoin (pathJoin "/dl" "game") "game.part2.rar")) ∧
    (getExtractionInfo "/dl" "" none
        (FSView.mk none [] true ["game.part2.rar", "game.part3.rar"])).filePath
      = some (pathJoin "/dl" "game.part2.rar") :=
  ⟨⟨by decide,
      (getExtractionInfo_fallback_first_compressed "/dl" "game" none
          (FSView.mk (some .directory) ["game.part2.rar", "game.part3.rar"] false [])
          "game.part2.rar" ["game.part3.rar"]).1
        (by decide) rfl (by decide) (by decide)⟩,
    (getExtractionInfo_fallback_first_compressed "/dl" "" none
        (FSView.mk none [] true ["game.part2.rar", "game.part3.rar"])
        "game.part2.rar" ["game.part3.rar"]).2
      rfl rfl (by decide) (by decide)⟩

/-- Claim C2: `runInstallerIfExists` resolves `false` (no error) when no
candidate installer path exists; when an installer is found and the
process exits, it resolves `true` exactly when the exit code is `0` or
`null`, and any other exit code rejects with a message carrying that
code. -/
theorem runInstallerIfExists_outcomes (cands : List Bool) (code : Option Int) :
    (cands.any id = false → runInstallerIfExists cands (.exited code) = .ok false) ∧
    (cands.any id = true →
       (runInstallerIfExists cands (.exited code) = .ok true
          ↔ (code = some 0 ∨ code = none)) ∧
       (∀ c : Int, code = some c → c ≠ 0 →
          runInstallerIfExists cands (.exited code)
            = .error ("Installer exit code " ++ toString c))) := by
  constructor
  · intro h
    simp [runInstallerIfExists, h]
  · intro h
    constructor
    · cases code with
      | none => simp [runInstallerIfExists, h]
      | some c =>
        by_cases hc : c = 0 <;> simp [runInstallerIfExists, h, hc]
    · intro c hcode hc
      subst hcode
      simp [runInstallerIfExists, h, hc]

/-- Witness for C2: no candidate exists — resolve `false`; installer
present with exit code 2 — reject carrying the code. -/
theorem runInstallerIfExists_outcomes_witness :
    ([false, false, false, false].any id = false ∧
      runInstallerIfExists [false, false, false, false] (.exited (some 1)) = .ok false) ∧
    ([true].any id = true ∧
      runInstallerIfExists [true] (.exited (some 2))
        = .error ("Installer exit code " ++ toString (2 : Int))) :=
  ⟨⟨by decide,
      (runInstallerIfExists_outcomes [false, false, false, false] (some 1)).1 (by decide)⟩,
    ⟨by decide,
      ((runInstallerIfExists_outcomes [true] (some 2)).2 (by decide)).2 2 rfl (by decide)⟩⟩

/-- The sequence of `status` values written to the store by a trace. -/
def statusWrites (tr : List Event) : List Status :=
  tr.filterMap fun e =>
    match e with
    | .putDownload r => some r.status
    | _ => none

/-- Whether the trace requests the installation-complete notification. -/
def notified (tr : List Event) : Bool :=
  tr.any fun e =>
    match e with
    | .publishNotification _ => true
    | _ => false

/-- The messages carried by installation-error signals in a trace. -/
def errorMsgs (tr : List Event) : List String :=
  tr.filterMap fun e =>
    match e with
    | .sendInstallationError m => some m
    | _ => none

lemma installer_exit_msg_ne_empty (c : Int) :
    ("Installer exit code " ++ toString c) ≠ "" := by
  intro h
  have hlen := congrArg String.length h
  rw [String.length_append] at hlen
  have h20 : ("Installer exit code " : String).length = 20 := rfl
  have h0 : ("" : String).length = 0 := rfl
  rw [h20, h0] at hlen
  omega

/-- Claim C3: with both records present, an absent installer or exit
code 0 ends with status `complete` and a notification exactly when not
suppressed; a nonzero exit code ends with status `error`, an
installation-error signal whose message carries the exit code, and no
notification. -/
theorem startInstallation_outcomes (d : DownloadRecord) (g : GameRecord)
    (info : ExtractionInfo) (ts : String) (cands : List Bool) (pub : Bool) :
    (∀ proc : ProcOutcome, cands.any id = false →
       statusWrites (startInstallation (some d) (some g) info ts cands proc pub)
           = [.installing, .complete] ∧
         notified (startInstallation (some d) (some g) info ts cands proc pub) = pub) ∧
    (cands.any id = true →
       (statusWrites (startInstallation (some d) (some g) info ts cands
             (.exited (some 0)) pub) = [.installing, .complete] ∧
         notified (startInstallation (some d) (some g) info ts cands
             (.exited (some 0)) pub) = pub) ∧
       (∀ c : Int, c ≠ 0 →
          statusWrites (startInstallation (some d) (some g) info ts cands
              (.exited (some c)) pub) = [.installing, .error] ∧
            errorMsgs (startInstallation (some d) (some g) info ts cands
                (.exited (some c)) pub) = ["Installer exit code " ++ toString c] ∧
            notified (startInstallation (some d) (some g) info ts cands
                (.exited (some c)) pub) = false)) := by
  refine ⟨?_, fun h => ⟨?_, fun c hc => ?_⟩⟩
  · intro proc h
    cases pub <;>
      simp [startInstallation, runInstallerIfExists, runInstallerEvents, h,
        statusWrites, notified]
  · cases pub <;>
      simp [startInstallation, runInstallerIfExists, runInstallerEvents, h,
        statusWrites, notified]
  · have hmsg := installer_exit_msg_ne_empty c
    cases pub <;>
      simp [startInstallation, runInstallerIfExists, runInstallerEvents, h, hc,
        statusWrites, notified, errorMsgs, errorMessageOr, hmsg]

/-- Download record used by the concrete witnesses below. -/
def sampleDownload : DownloadRecord :=
  { downloadPath := "/dl"
    folderName := some "Game.rar"
    extracting := true
    status := .extracting
    extra := "rest-of-record" }

/-- Game record used by the concrete witnesses below. -/
def sampleGame : GameRecord := { title := "Game" }

/-- Extraction info used by the concrete witnesses below. -/
def sampleInfo : ExtractionInfo :=
  { filePath := some "/dl/Game.rar"
    extractionPath := some "/dl/Game"
    folderName := some "Game.rar"
    compressedFiles := some ["Game.rar"] }

/-- Witness for C3: no installer; installer with exit code 0; installer
with exit code 1. -/
theorem startInstallation_outcomes_witness :
    ([false, false, false, false].any id = false ∧
      statusWrites (startInstallation (some sampleDownload) (some sampleGame)
          sampleInfo "ts" [false, false, false, false] (.exited none) true)
        = [.installing, .complete]) ∧
    ([true].any id = true ∧
      statusWrites (startInstallation (some sampleDownload) (some sampleGame)
          sampleInfo "ts" [true] (.exited (some 0)) true)
        = [.installing, .complete]) ∧
    ((1 : Int) ≠ 0 ∧
      errorMsgs (startInstallation (some sampleDownload) (some sampleGame)
          sampleInfo "ts" [true] (.exited (some 1)) true)
        = ["Installer exit code " ++ toString (1 : Int)] ∧
      notified (startInstallation (some sampleDownload) (some sampleGame)
          sampleInfo "ts" [true] (.exited (some 1)) true) = false) :=
  ⟨⟨by decide,
      ((startInstallation_outcomes sampleDownload sampleGame sampleInfo "ts"
          [false, false, false, false] true).1 (.exited none) (by decide)).1⟩,
    ⟨by decide,
      (((startInstallation_outcomes sampleDownload sampleGame sampleInfo "ts"
          [true] true).2 (by decide)).1).1⟩,
    ⟨by decide,
      (((startInstallation_outcomes sampleDownload sampleGame sampleInfo "ts"
          [true] true).2 (by decide)).2 1 (by decide)).2.1,
      (((startInstallation_outcomes sampleDownload sampleGame sampleInfo "ts"
          [true] true).2 (by decide)).2 1 (by decide)).2.2⟩⟩

/-- Claim C8: a missing download record or game record makes
`startInstallation` return and `extractDownloadedFile` return `false`,
in every case with an empty effect trace (no store writes, no signals)
and no error. -/
theorem missing_records_no_effects (d : DownloadRecord) (g : GameRecord)
    (info : ExtractionInfo) (ts : String) (cands : List Bool)
    (proc : ProcOutcome) (pub : Bool) (primaryOk secDirExists : Bool)
    (secFiles : List String) (secOk : String → Bool) (e1 e2 : Bool) :
    startInstallation none (some g) info ts cands proc pub = [] ∧
    startInstallation (some d) none info ts cands proc pub = [] ∧
    startInstallation none none info ts cands proc pub = [] ∧
    extractDownloadedFile none (some g) primaryOk secDirExists secFiles secOk
        e1 e2 info ts cands proc = (false, []) ∧
    extractDownloadedFile (some d) none primaryOk secDirExists secFiles secOk
        e1 e2 info ts cands proc = (false, []) ∧
    extractDownloadedFile none none primaryOk secDirExists secFiles secOk
        e1 e2 info ts cands proc = (false, []) :=
  ⟨rfl, rfl, rfl, rfl, rfl, rfl⟩

/-- Claim C9: when the primary extraction fails, the record is rewritten
with `extracting := false` and every other field — in particular
`status` — unchanged; the failure trace is exactly that store write plus
the extraction-complete signal, with no `error` status transition. -/
theorem clearExtractionState_frame (d : DownloadRecord) (g : GameRecord)
    (secDirExists : Bool) (secFiles : List String) (secOk : String → Bool)
    (e1 e2 : Bool) (info : ExtractionInfo) (ts : String) (cands : List Bool)
    (proc : ProcOutcome) :
    (clearExtractionState d).1.extracting = false ∧
    (clearExtractionState d).1.status = d.status ∧
    (clearExtractionState d).1.folderName = d.folderName ∧
    (clearExtractionState d).1.downloadPath = d.downloadPath ∧
    (clearExtractionState d).1.extra = d.extra ∧
    (extractDownloadedFile (some d) (some g) false secDirExists secFiles secOk
        e1 e2 info ts cands proc).2
      = [.putDownload (clearExtractionState d).1, .sendExtractionComplete] :=
  ⟨rfl, rfl, rfl, rfl, rfl, rfl⟩

/-- Claim C5 counterexample: for content holding a blank line and a
whitespace-padded line, the forwarded sequence is not the content's line
split: `sendLogLine` drops the empty line (as does the flush's
`.filter(Boolean)`) and trims the padded one, so a line is dropped and
another rewritten even with the whole content arriving as one chunk. -/
theorem log_tailing_blank_line_dropped :
    forwardedLines [("a\n\n b \nc").data] [] = [['a'], ['b'], ['c']] ∧
    splitRN (concatAll [("a\n\n b \nc").data] ++ [])
      = [['a'], [], [' ', 'b', ' '], ['c']] ∧
    forwardedLines [("a\n\n b \nc").data] []
      ≠ splitRN (concatAll [("a\n\n b \nc").data] ++ []) := by
  refine ⟨by decide, by decide, by decide⟩

/-- Claim C5 (amended): for a log file whose content reached the reader
as any sequence of appended chunks during polling (chunk boundaries may
fall mid-line; LF and CRLF both delimit) followed by the unread tail
flushed at cleanup, the lines forwarded as progress events during
polling plus the final flush equal the full content split on line
boundaries with empty lines removed and every line trimmed — the
normalization `sendLogLine` applies to each single line.  In particular
the forwarding is independent of the chunking: beyond that per-line
normalization no line is dropped and none is duplicated. -/
theorem log_tailing_forwards_normalized_split (chunks : List (List Char))
    (tail : List Char) :
    forwardedLines chunks tail
      = ((splitRN (concatAll chunks ++ tail)).filter fun l => !l.isEmpty).map
          trimChars := by
  rw [forwardedLines_eq, filterMap_sendLogLine_eq_filter_map]

/-- Claim C6 counterexample: at one concrete store and process state the
two entry points produce different effect traces — `startInstallation`
writes a descriptor to the zerokey resources directory and invokes the
installer with the computed extraction info, while `setExtractionComplete`
invokes it with none. -/
theorem startInstallation_ne_setExtractionComplete :
    startInstallation (some sampleDownload) (some sampleGame) sampleInfo
        "2026-10-12T00:00:00.000Z" [true] (.exited (some 0)) true
      ≠ setExtractionComplete (some sampleDownload) (some sampleGame)
          [true] (.exited (some 0)) true := by
  decide

/-- The observables claim C6 lists: store writes, lifecycle signals and
notification requests — as opposed to descriptor writes, file deletions
and the installer invocation itself. -/
def isStateEvent : Event → Bool
  | .putDownload _ => true
  | .sendExtractionComplete => true
  | .sendInstallationStart => true
  | .sendInstallationComplete => true
  | .sendInstallationError _ => true
  | .publishNotification _ => true
  | .writeExtractJson _ _ => false
  | .unlinkFile _ => false
  | .spawnInstaller _ => false

lemma filter_state_runInstallerEvents (cands : List Bool)
    (i : Option ExtractionInfo) :
    (runInstallerEvents cands i).filter isStateEvent = [] := by
  unfold runInstallerEvents
  split <;> simp [isStateEvent]

/-- Claim C6 (amended): for every store state, process outcome and flag,
the two entry points perform the same store writes, the same lifecycle
signals and the same notification requests, in the same order; they
differ only in the descriptor-file writes and in the argument the
installer invocation carries (`startInstallation` passes the computed
extraction info, `setExtractionComplete` passes none). -/
theorem startInstallation_setExtractionComplete_state_agree
    (download : Option DownloadRecord) (game : Option GameRecord)
    (info : ExtractionInfo) (ts : String) (cands : List Bool)
    (proc : ProcOutcome) (pub : Bool) :
    (startInstallation download game info ts cands proc pub).filter isStateEvent
      = (setExtractionComplete download game cands proc pub).filter isStateEvent := by
  cases download with
  | none => cases game <;> rfl
  | some d =>
    cases game with
    | none => rfl
    | some g =>
      simp only [startInstallation, setExtractionComplete]
      cases hr : runInstallerIfExists cands proc <;>
        cases pub <;>
          simp [List.filter_append, filter_state_runInstallerEvents, isStateEvent, hr]

/-- Claim C7 counterexample: the descriptor document rewritten beside
the installer binary by `runInstallerIfExists` has no `timestamp` field
at all. -/
theorem installerDirDescriptor_no_timestamp :
    runInstallerEvents [true] (some sampleInfo)
      = [ .writeExtractJson "installerDir" (installerDirDescriptor (some sampleInfo))
        , .spawnInstaller (some sampleInfo) ] ∧
    (installerDirDescriptor (some sampleInfo)).lookup "timestamp" = none := by
  exact ⟨rfl, by decide⟩

/-- Claim C7 (amended): the descriptor written beside the installer
binary carries exactly `filePath`, `extractionPath`, `folderName` and
`compressedFiles` (no `timestamp`); the companion document written by
`startInstallation` to the fixed zerokey resources directory carries
those four plus the ISO timestamp; reading either back yields exactly
the supplied values of the four fields. -/
theorem extractJson_round_trip (i : ExtractionInfo) (ts : String) :
    decodeStr ((startInstallationDescriptor i ts).lookup "filePath") = i.filePath ∧
    decodeStr ((startInstallationDescriptor i ts).lookup "extractionPath") = i.extractionPath ∧
    decodeStr ((startInstallationDescriptor i ts).lookup "folderName") = i.folderName ∧
    (startInstallationDescriptor i ts).lookup "compressedFiles"
      = some (.arr (i.compressedFiles.getD [])) ∧
    (startInstallationDescriptor i ts).lookup "timestamp" = some (.str ts) ∧
    decodeStr ((installerDirDescriptor (some i)).lookup "filePath") = i.filePath ∧
    decodeStr ((installerDirDescriptor (some i)).lookup "extractionPath") = i.extractionPath ∧
    decodeStr ((installerDirDescriptor (some i)).lookup "folderName") = i.folderName ∧
    (installerDirDescriptor (some i)).lookup "compressedFiles"
      = some (.arr (i.compressedFiles.getD [])) ∧
    (installerDirDescriptor (some i)).lookup "timestamp" = none := by
  obtain ⟨fp, ep, fn, cf⟩ := i
  cases fp <;> cases ep <;> cases fn <;>
    exact ⟨rfl, rfl, rfl, rfl, rfl, rfl, rfl, rfl, rfl, rfl⟩

end Hydra
